import Mathlib

/-!
Verification development for the bilibili-downloader task-coordination core.

The definitions below are a shallow embedding of the Python sources:
`src/bilibili_downloader/api_routes.py` (admission control, progress query,
quality selection, filename sanitization, background pipeline),
`src/bilibili_downloader/downloader.py` (stream fetch with size cap and
progress callbacks), `src/bilibili_downloader/auth.py` (encrypted cookie
store) and `src/bilibili_downloader/app.py` (periodic cleanup).

Python dicts are modelled as association lists; the shared mutable task
record objects are modelled as a heap keyed by task id, with the global
`_download_tasks` table and each session's `tasks` table holding keys into
that heap (mirroring Python reference sharing).  Machine reals produced by
`round(x, 1)` are modelled as exact rationals with round-half-to-even.
-/

namespace BiliDL

/-- Task status strings: "starting" | "downloading" | "completed" | "error". -/
inductive TaskStatus
  | starting
  | downloading
  | completed
  | error
  deriving DecidableEq

/-- Task phase strings: "init" | "video" | "audio" | "merging" | "done". -/
inductive TaskPhase
  | init
  | video
  | audio
  | merging
  | done
  deriving DecidableEq

/-- One task record (`task_data` dict built in `start_download`). -/
structure TaskData where
  status : TaskStatus
  progress_video : ℚ
  progress_audio : ℚ
  phase : TaskPhase
  filename : Option (List Char)
  error : Option String
  session_id : String
  deriving DecidableEq

/-- Association-list lookup, the model of Python `dict.get`. -/
def lookupA {β : Type} : List (String × β) → String → Option β
  | [], _ => none
  | (k, v) :: rest, key => if k = key then some v else lookupA rest key

/-- Server-side shared state: `heap` holds the task record objects keyed by
task id; `downloadTasks` is the key set of the module-level `_download_tasks`
dict; `sessions` maps a session id to the key set of that session's `tasks`
dict.  Both tables reference the same record objects in Python, which the
shared heap mirrors. -/
structure ServerState where
  heap : List (String × TaskData)
  downloadTasks : List String
  sessions : List (String × List String)
  deriving DecidableEq

/-- `t["status"] in ("starting", "downloading")` from `start_download`. -/
def taskActive (t : TaskData) : Bool :=
  match t.status with
  | .starting => true
  | .downloading => true
  | _ => false

/-- `MAX_CONCURRENT_DOWNLOADS = 3` (api_routes.py). -/
def MAX_CONCURRENT_DOWNLOADS : Nat := 3

/-- `active = sum(1 for t in _download_tasks.values() if t["status"] in
("starting", "downloading"))`. -/
def countActive (s : ServerState) : Nat :=
  (s.downloadTasks.filter (fun tid =>
    match lookupA s.heap tid with
    | some t => taskActive t
    | none => false)).length

/-- The fresh record created by `start_download`. -/
def newTaskData (sid : String) : TaskData :=
  { status := .starting
    progress_video := 0
    progress_audio := 0
    phase := .init
    filename := none
    error := none
    session_id := sid }

/-- `session.tasks[task_id] = task_data`: register the new task key under the
session entry (creating the entry if the session is not yet listed). -/
def addSessionTask : List (String × List String) → String → String → List (String × List String)
  | [], sid, tid => [(sid, [tid])]
  | (k, ts) :: rest, sid, tid =>
      if k = sid then (k, tid :: ts) :: rest
      else (k, ts) :: addSessionTask rest sid tid

/-- Result of `POST /api/download`: 500 tool-missing, 429 busy, or the task id. -/
inductive SubmitResult
  | toolMissing
  | busy
  | accepted (taskId : String)
  deriving DecidableEq

/-- `start_download` (api_routes.py): check ffmpeg, count active tasks,
reject with 429 at the cap, otherwise create the record with status
"starting" under both tables and return the task id.  `tid` stands for the
freshly generated `str(uuid.uuid4())`. -/
def start_download (s : ServerState) (ffmpegOk : Bool) (sid tid : String) :
    SubmitResult × ServerState :=
  if ffmpegOk = false then (.toolMissing, s)
  else if MAX_CONCURRENT_DOWNLOADS ≤ countActive s then (.busy, s)
  else
    (.accepted tid,
     { heap := (tid, newTaskData sid) :: s.heap
       downloadTasks := tid :: s.downloadTasks
       sessions := addSessionTask s.sessions sid tid })

/-- The record view sent over SSE: `{k: v for k, v in t.items() if k != "session_id"}`. -/
structure TaskView where
  status : TaskStatus
  progress_video : ℚ
  progress_audio : ℚ
  phase : TaskPhase
  filename : Option (List Char)
  error : Option String
  deriving DecidableEq

/-- Strip the owning-session field from a record. -/
def stripSession (t : TaskData) : TaskView :=
  { status := t.status
    progress_video := t.progress_video
    progress_audio := t.progress_audio
    phase := t.phase
    filename := t.filename
    error := t.error }

/-- First SSE event of `GET /api/download/progress/{task_id}`. -/
inductive ProgressResult
  | notFound
  | snapshot (view : TaskView)
  deriving DecidableEq

/-- `_download_tasks.get(task_id)`: a hit needs the key in the global table
and resolves to the shared record object. -/
def globalLookup (s : ServerState) (tid : String) : Option TaskData :=
  if tid ∈ s.downloadTasks then lookupA s.heap tid else none

/-- `download_progress` (api_routes.py): `cookie` is
`request.cookies.get(SESSION_COOKIE_NAME)` (`none` when the cookie header is
absent).  The guard is `task is None or (session_id and
task.get("session_id") != session_id)`; Python truthiness makes an empty
cookie string behave like an absent one. -/
def download_progress (s : ServerState) (tid : String) (cookie : Option String) :
    ProgressResult :=
  match globalLookup s tid with
  | none => .notFound
  | some t =>
      match cookie with
      | none => .snapshot (stripSession t)
      | some c =>
          if c ≠ "" ∧ t.session_id ≠ c then .notFound
          else .snapshot (stripSession t)

/-- `v["status"] in ("completed", "error")` from `_periodic_cleanup`. -/
def taskFinished (t : TaskData) : Bool :=
  match t.status with
  | .completed => true
  | .error => true
  | _ => false

/-- The finished-task sweep of `_periodic_cleanup` (app.py): delete every
terminal entry from the global `_download_tasks` table; heap objects and the
per-session tables are untouched. -/
def periodic_cleanup_tasks (s : ServerState) : ServerState :=
  { s with downloadTasks := s.downloadTasks.filter (fun tid =>
      match lookupA s.heap tid with
      | some t => !(taskFinished t)
      | none => true) }

/-! ### Credential store (auth.py)

The `cryptography.fernet` and `json` libraries are modelled by their
contracts: a Fernet token under the process-local key decrypts back to its
payload and every other byte string raises `InvalidToken`; `bytes.decode`
raises `UnicodeDecodeError` on byte payloads that are not valid UTF-8 (a
token with such a payload is producible, since the key is derivable from
machine attributes); `json.loads` inverts `json.dumps` on string
dictionaries and raises `JSONDecodeError` on decoded text that is not
JSON. -/

/-- Possible decrypted byte payloads: UTF-8 bytes of a serialized cookie
dict, UTF-8 bytes of other valid JSON, UTF-8 bytes that are not JSON, or
bytes that are not valid UTF-8 at all (listed as raw byte values). -/
inductive PlainBytes
  | jsonDict (cookies : List (String × String))
  | jsonOther (raw : String)
  | invalidJson (raw : String)
  | nonUtf8 (raw : List Nat)
  deriving DecidableEq

/-- Possible credential-file contents: a Fernet token under the derived key,
or any foreign byte string. -/
inductive FileBytes
  | fernetToken (payload : PlainBytes)
  | foreign (raw : String)
  deriving DecidableEq

/-- UTF-8 text as classified by `json.loads`. -/
inductive DecodedText
  | jsonDict (cookies : List (String × String))
  | jsonOther (raw : String)
  | invalidJson (raw : String)
  deriving DecidableEq

/-- Values `json.loads` can produce here. -/
inductive JsonValue
  | dict (entries : List (String × String))
  | other (raw : String)
  deriving DecidableEq

/-- The exception classes that can arise in `load_cookies`; the `except`
clause catches only the first two. -/
inductive PyError
  | invalidToken
  | jsonDecodeError
  | unicodeDecodeError
  deriving DecidableEq

/-- `self._fernet.encrypt(plaintext)`. -/
def fernetEncrypt (p : PlainBytes) : FileBytes := .fernetToken p

/-- `self._fernet.decrypt(encrypted)`: raises `InvalidToken` on anything that
is not a token under the process key. -/
def fernetDecrypt : FileBytes → Except PyError PlainBytes
  | .fernetToken p => .ok p
  | .foreign _ => .error .invalidToken

/-- `json.dumps(cookies, ensure_ascii=False).encode("utf-8")`. -/
def jsonDumps (cookies : List (String × String)) : PlainBytes := .jsonDict cookies

/-- `plaintext.decode("utf-8")`: raises `UnicodeDecodeError` on bytes that
are not valid UTF-8. -/
def utf8Decode : PlainBytes → Except PyError DecodedText
  | .jsonDict c => .ok (.jsonDict c)
  | .jsonOther s => .ok (.jsonOther s)
  | .invalidJson s => .ok (.invalidJson s)
  | .nonUtf8 _ => .error .unicodeDecodeError

/-- `json.loads(text)`: raises `JSONDecodeError` on text that is not JSON. -/
def jsonLoads : DecodedText → Except PyError JsonValue
  | .jsonDict c => .ok (.dict c)
  | .jsonOther s => .ok (.other s)
  | .invalidJson _ => .error .jsonDecodeError

/-- `AuthManager.save_cookies`: serialize then encrypt; the result is the new
content of the cookie file. -/
def save_cookies (cookies : List (String × String)) : FileBytes :=
  fernetEncrypt (jsonDumps cookies)

/-- The `try` body of `load_cookies`: decrypt, decode as UTF-8, parse as
JSON, in statement order. -/
def loadBody (fb : FileBytes) : Except PyError JsonValue :=
  match fernetDecrypt fb with
  | .error e => .error e
  | .ok plaintext =>
      match utf8Decode plaintext with
      | .error e => .error e
      | .ok text => jsonLoads text

/-- `AuthManager.load_cookies`: absent file yields `None`; the
read-decrypt-decode-parse block is guarded by
`except (InvalidToken, json.JSONDecodeError)`, which yields `None`; any
other exception — here `UnicodeDecodeError` from `plaintext.decode` —
propagates to the caller.  The argument is the current content of the
cookie file (`none` = file absent). -/
def load_cookies (file : Option FileBytes) : Except PyError (Option JsonValue) :=
  match file with
  | none => .ok none
  | some fb =>
      match loadBody fb with
      | .ok data => .ok (some data)
      | .error .invalidToken => .ok none
      | .error .jsonDecodeError => .ok none
      | .error .unicodeDecodeError => .error .unicodeDecodeError

/-! ### Quality selection (`_run_download`, api_routes.py) -/

/-- One entry of `play_url["video"]`: the quality code `id` and its URL. -/
structure Variant where
  id : Nat
  baseUrl : String
  deriving DecidableEq

/-- Comparison used by `sorted(play_url["video"], key=lambda v: v["id"],
reverse=True)`: descending quality code. -/
def qualityGE (a b : Variant) : Prop := b.id ≤ a.id

instance : DecidableRel qualityGE := fun a b => Nat.decLe b.id a.id

/-- `video_streams = sorted(play_url["video"], key=..., reverse=True)`. -/
def sortedVideoStreams (variants : List Variant) : List Variant :=
  variants.insertionSort qualityGE

/-- The selection loop: first sorted variant with `id <= quality`, else
`video_streams[-1]` (the last, lowest-quality one); `none` only when the
variant list is empty (where Python raises IndexError). -/
def selectVideoStream (variants : List Variant) (quality : Nat) : Option Variant :=
  match (sortedVideoStreams variants).find? (fun v => decide (v.id ≤ quality)) with
  | some v => some v
  | none => (sortedVideoStreams variants).getLast?

/-! ### Filename sanitization (`_run_download`, api_routes.py)

`re.sub(r'[^\w\s\-]', '', title, flags=re.UNICODE).strip()[:100]`, falling
back to `bvid` when empty.  The Unicode character classes `\w` and `\s` are
parameters `wordChar` and `spaceChar`; theorems constrain them only on the
ASCII punctuation relevant to path traversal, and witnesses instantiate them
with their ASCII restrictions. -/

/-- A character survives `re.sub(r'[^\w\s\-]', '', ...)`. -/
def keepChar (wordChar spaceChar : Char → Bool) (c : Char) : Bool :=
  wordChar c || spaceChar c || decide (c = '-')

/-- Python `str.strip()`: drop leading and trailing whitespace. -/
def pyStrip (spaceChar : Char → Bool) (l : List Char) : List Char :=
  ((l.dropWhile spaceChar).reverse.dropWhile spaceChar).reverse

/-- `re.sub(r'[^\w\s\-]', '', title).strip()[:100]`. -/
def sanitizeTitle (wordChar spaceChar : Char → Bool) (title : List Char) : List Char :=
  (pyStrip spaceChar (title.filter (keepChar wordChar spaceChar))).take 100

/-- `safe_title` with the `if not safe_title: safe_title = bvid` fallback. -/
def safeTitleOr (wordChar spaceChar : Char → Bool) (title bvid : List Char) : List Char :=
  if sanitizeTitle wordChar spaceChar title = [] then bvid
  else sanitizeTitle wordChar spaceChar title

/-- ASCII restriction of Python `\w`. -/
def asciiWordChar (c : Char) : Bool := c.isAlphanum || decide (c = '_')

/-- ASCII restriction of Python `\s` / `str.strip` whitespace. -/
def asciiSpaceChar (c : Char) : Bool := c.isWhitespace

/-! ### Stream fetcher (`Downloader.download_stream`, downloader.py) -/

/-- `MAX_FILE_SIZE = 5 * 1024 * 1024 * 1024`. -/
def MAX_FILE_SIZE : Nat := 5 * 1024 * 1024 * 1024

/-- One step of the response body iteration: a chunk of bytes, or the network
failing mid-stream (the iterator raising). -/
inductive StreamEvent
  | chunk (size : Nat)
  | netError
  deriving DecidableEq

/-- The model of an HTTP streaming response: whether `raise_for_status`
passes, the declared `content-length` (0 when the header is missing), and
the body events. -/
structure StreamResp where
  statusOk : Bool
  contentLength : Nat
  events : List StreamEvent
  deriving DecidableEq

/-- Failure modes of `download_stream`. -/
inductive FetchError
  | httpStatus
  | sizeDeclared
  | sizeExceeded
  | network
  deriving DecidableEq

/-- Floor of a rational on its reduced fraction (kernel-computable; equal to
`⌊q⌋` by `Rat.floor_def`). -/
def ratFloor (q : ℚ) : ℤ := q.num / (q.den : ℤ)

/-- Round-half-to-even to an integer, the model of Python `round`. -/
def roundHalfEven (q : ℚ) : ℤ :=
  if q - ratFloor q < 1/2 then ratFloor q
  else if 1/2 < q - ratFloor q then ratFloor q + 1
  else if ratFloor q % 2 = 0 then ratFloor q else ratFloor q + 1

/-- `round(x, 1)`. -/
def pyRound1 (q : ℚ) : ℚ := (roundHalfEven (q * 10) : ℚ) / 10

/-- `round(downloaded / total * 100, 1)`. -/
def percentOf (downloaded total : Nat) : ℚ :=
  pyRound1 ((downloaded : ℚ) / (total : ℚ) * 100)

/-- The chunk loop of `download_stream`: write the chunk, bump `downloaded`,
unlink and raise once the cap is exceeded, then invoke `on_progress` when a
total is known.  Returns (outcome, bytes now at the destination if a file is
there, percent values passed to `on_progress` in order). -/
def runChunks (total : Nat) : Nat → List StreamEvent →
    Except FetchError Unit × Option Nat × List ℚ
  | downloaded, [] => (.ok (), some downloaded, [])
  | downloaded, .netError :: _ => (.error .network, some downloaded, [])
  | downloaded, .chunk n :: rest =>
      if MAX_FILE_SIZE < downloaded + n then (.error .sizeExceeded, none, [])
      else
        let r := runChunks total (downloaded + n) rest
        (r.1, r.2.1,
         if 0 < total then percentOf (downloaded + n) total :: r.2.2 else r.2.2)

instance {ε α : Type} [DecidableEq ε] [DecidableEq α] : DecidableEq (Except ε α) := fun a b =>
  match a, b with
  | .ok x, .ok y => decidable_of_iff (x = y) (by simp)
  | .ok _, .error _ => isFalse (by simp)
  | .error _, .ok _ => isFalse (by simp)
  | .error e, .error f => decidable_of_iff (e = f) (by simp)

/-- Observable outcome of one `download_stream` call. -/
structure FetchOutcome where
  result : Except FetchError Unit
  file : Option Nat
  progress : List ℚ
  deriving DecidableEq

/-- `Downloader.download_stream`: `raise_for_status`, reject an over-cap
declared length before the file is opened, otherwise `open(output_path,
"wb")` truncates the destination and the chunk loop runs.  `pre` is what was
at the destination path before the call (`none` = nothing). -/
def download_stream (pre : Option Nat) (resp : StreamResp) : FetchOutcome :=
  if resp.statusOk = false then ⟨.error .httpStatus, pre, []⟩
  else if MAX_FILE_SIZE < resp.contentLength then ⟨.error .sizeDeclared, pre, []⟩
  else
    let r := runChunks resp.contentLength 0 resp.events
    ⟨r.1, r.2.1, r.2.2⟩

/-- Total number of body bytes the stream delivers. -/
def chunkSum : List StreamEvent → Nat
  | [] => 0
  | .chunk n :: rest => n + chunkSum rest
  | .netError :: rest => chunkSum rest

/-! ### Background pipeline (`_run_download`, api_routes.py)

The record evolution of one task is modelled as the list of successive
values of the task record, one snapshot after each mutation the coroutine
performs; the head is the record as created by `start_download`.  External
calls are an environment: `none` in an `Option` field means that call raised. -/

/-- Outcomes of the external calls `_run_download` makes, in program order:
URL resolution to a bvid, `get_video_info` (title, cid is dropped here),
`get_play_url` (video variants, audio variants), the two stream responses,
and whether `merge_streams` exits zero. -/
structure RunEnv where
  bvid : Option (List Char)
  videoTitle : Option (List Char)
  playUrl : Option (List Variant × List Variant)
  videoResp : StreamResp
  audioResp : StreamResp
  mergeOk : Bool

/-- The generic user-facing error message set by the `except` handler. -/
def genericErrorMsg : String := "ダウンロード中にエラーが発生しました"

/-- The `except` handler: `task["status"] = "error"` then `task["error"] =
<generic message>`, one snapshot per assignment. -/
def errorTail (t : TaskData) : List TaskData :=
  [{ t with status := .error },
   { t with status := .error, error := some genericErrorMsg }]

/-- Record snapshots produced by a progress callback (`on_video_progress` /
`on_audio_progress`): one mutation per percent value, carrying the running
record; also returns the record after the last callback. -/
def progressSnaps (upd : TaskData → ℚ → TaskData) :
    TaskData → List ℚ → List TaskData × TaskData
  | t, [] => ([], t)
  | t, p :: ps =>
      let r := progressSnaps upd (upd t p) ps
      (upd t p :: r.1, r.2)

/-- `task["progress_video"] = p["percent"]`. -/
def setVideoProgress (t : TaskData) (p : ℚ) : TaskData := { t with progress_video := p }

/-- `task["progress_audio"] = p["percent"]`. -/
def setAudioProgress (t : TaskData) (p : ℚ) : TaskData := { t with progress_audio := p }

/-- Trace tail from the merge step: `task["phase"] = "merging"`, the
`merge_streams` call, and on success `status = "completed"`,
`phase = "done"`, `filename = f"{safe_title}.mp4"`; on a non-zero exit the
handler runs. -/
def mergeTrace (outName : List Char) (mergeOk : Bool) (t : TaskData) : List TaskData :=
  let t6 : TaskData := { t with phase := .merging }
  if mergeOk then
    let t7 : TaskData := { t6 with status := .completed }
    let t8 : TaskData := { t7 with phase := .done }
    [t6, t7, t8, { t8 with filename := some outName }]
  else t6 :: errorTail t6

/-- Trace tail from the audio fetch: `task["phase"] = "audio"`, the audio
`download_stream` with its progress callbacks, then the merge step; a fetch
failure runs the handler. -/
def audioTrace (outName : List Char) (env : RunEnv) (t : TaskData) : List TaskData :=
  let t4 : TaskData := { t with phase := .audio }
  let aOut := download_stream none env.audioResp
  let aSnaps := progressSnaps setAudioProgress t4 aOut.progress
  t4 :: aSnaps.1 ++
    (match aOut.result with
     | .error _ => errorTail aSnaps.2
     | .ok _ => mergeTrace outName env.mergeOk aSnaps.2)

/-- Trace tail from `task["phase"] = "video"`, `task["status"] =
"downloading"`: the video `download_stream` with its progress callbacks,
then the audio step; a fetch failure runs the handler. -/
def videoTrace (outName : List Char) (env : RunEnv) (t0 : TaskData) : List TaskData :=
  let t1 : TaskData := { t0 with phase := .video }
  let t2 : TaskData := { t1 with status := .downloading }
  let vOut := download_stream none env.videoResp
  let vSnaps := progressSnaps setVideoProgress t2 vOut.progress
  t1 :: t2 :: vSnaps.1 ++
    (match vOut.result with
     | .error _ => errorTail vSnaps.2
     | .ok _ => audioTrace outName env vSnaps.2)

/-- `_run_download` as a snapshot trace of the task record starting from its
created state `t0`.  Mirrors the statement order of the source: metadata
calls (any failure jumps to the handler while status is still "starting"),
stream selection (`video_streams[-1]` and `play_url["audio"][0]` raise
IndexError on empty lists), then the video/audio/merge phases. -/
def runDownloadTrace (wordChar spaceChar : Char → Bool) (env : RunEnv)
    (quality : Nat) (t0 : TaskData) : List TaskData :=
  t0 ::
    match env.bvid with
    | none => errorTail t0
    | some bvid =>
      match env.videoTitle with
      | none => errorTail t0
      | some title =>
        match env.playUrl with
        | none => errorTail t0
        | some streams =>
          match selectVideoStream streams.1 quality, streams.2.head? with
          | none, _ => errorTail t0
          | some _, none => errorTail t0
          | some _, some _ =>
            videoTrace (safeTitleOr wordChar spaceChar title bvid ++ ['.', 'm', 'p', '4'])
              env t0

/-- Terminal statuses. -/
def isTerminal (st : TaskStatus) : Bool :=
  match st with
  | .completed => true
  | .error => true
  | _ => false

/-- The specified per-task state machine, with stuttering: a mutation either
leaves the status unchanged or takes one allowed transition. -/
def stepOk (a b : TaskStatus) : Prop :=
  a = b ∨
  (a = .starting ∧ (b = .downloading ∨ b = .error)) ∨
  (a = .downloading ∧ (b = .completed ∨ b = .error))

instance : DecidableRel stepOk := fun a b =>
  decidable_of_iff
    (a = b ∨
      (a = .starting ∧ (b = .downloading ∨ b = .error)) ∨
      (a = .downloading ∧ (b = .completed ∨ b = .error)))
    Iff.rfl

/-! ### Concrete fixture states used by witnesses and counterexamples -/

/-- A server state with three active downloads (two sessions). -/
def busyState : ServerState :=
  { heap := [("a", newTaskData "s1"), ("b", newTaskData "s1"), ("c", newTaskData "s2")]
    downloadTasks := ["a", "b", "c"]
    sessions := [("s1", ["a", "b"]), ("s2", ["c"])] }

/-- A server state with no tasks at all. -/
def emptyState : ServerState :=
  { heap := [], downloadTasks := [], sessions := [] }

/-- One task owned by session "sessA", still starting. -/
def oneTaskState : ServerState :=
  { heap := [("t1", newTaskData "sessA")]
    downloadTasks := ["t1"]
    sessions := [("sessA", ["t1"])] }

/-- One completed task owned by session "sessA". -/
def oneDoneState : ServerState :=
  { heap := [("t1", { newTaskData "sessA" with status := .completed })]
    downloadTasks := ["t1"]
    sessions := [("sessA", ["t1"])] }

/-- The quality-selection example list from the spec: codes 120/80/64/32/16. -/
def variants5 : List Variant :=
  [⟨120, "u120"⟩, ⟨80, "u80"⟩, ⟨64, "u64"⟩, ⟨32, "u32"⟩, ⟨16, "u16"⟩]

/-- The sanitization example title from the spec. -/
def evilTitle : List Char := "../evil:name?.mp4".toList

/-- An environment whose URL resolution fails at once. -/
def failEnv : RunEnv :=
  { bvid := none
    videoTitle := none
    playUrl := none
    videoResp := ⟨true, 0, []⟩
    audioResp := ⟨true, 0, []⟩
    mergeOk := true }

end BiliDL

namespace BiliDL

/-! ## Theorems -/

/-- C4: for every credential mapping `x`, saving `x` through the Credential
Store and then loading from the same path yields `x` back:
`load(save(x)) == x`. -/
theorem C4_save_load_roundtrip (x : List (String × String)) :
    load_cookies (some (save_cookies x)) = .ok (some (.dict x)) := rfl

/-- C5 (amended): an absent credential file yields absent, and any
decryption failure (`InvalidToken`) or JSON parse failure
(`JSONDecodeError`) in the load body yields absent rather than an
exception; the sole way `load()` can raise is a valid Fernet token under
the process-local key whose decrypted payload is not valid UTF-8, where
`plaintext.decode("utf-8")` raises an uncaught `UnicodeDecodeError`. -/
theorem C5_load_failure_handling (file : Option FileBytes) :
    (file = none → load_cookies file = .ok none) ∧
    (∀ fb, file = some fb →
      (loadBody fb = .error .invalidToken ∨
        loadBody fb = .error .jsonDecodeError) →
      load_cookies file = .ok none) ∧
    (∀ e, load_cookies file = .error e →
      e = .unicodeDecodeError ∧
      ∃ raw, file = some (.fernetToken (.nonUtf8 raw))) := by
  refine ⟨?_, ?_, ?_⟩
  · intro h; subst h; rfl
  · intro fb hfb hfail
    subst hfb
    rcases hfail with h | h <;> simp [load_cookies, h]
  · intro e he
    cases file with
    | none => simp [load_cookies] at he
    | some fb =>
      cases fb with
      | foreign s =>
        simp [load_cookies, loadBody, fernetDecrypt] at he
      | fernetToken p =>
        cases p with
        | jsonDict c =>
          simp [load_cookies, loadBody, fernetDecrypt, utf8Decode, jsonLoads] at he
        | jsonOther s =>
          simp [load_cookies, loadBody, fernetDecrypt, utf8Decode, jsonLoads] at he
        | invalidJson s =>
          simp [load_cookies, loadBody, fernetDecrypt, utf8Decode, jsonLoads] at he
        | nonUtf8 raw =>
          have hload : load_cookies (some (.fernetToken (.nonUtf8 raw))) =
              .error .unicodeDecodeError := rfl
          rw [hload] at he
          exact ⟨(Except.error.inj he).symm, raw, rfl⟩

/-- Witness for C5 (amended) at concrete inputs: a foreign file content is
absorbed to absent, and the raising case is pinned to the non-UTF-8 token
payload. -/
theorem C5_load_failure_handling_witness :
    load_cookies (some (.foreign "junk")) = .ok none ∧
    (PyError.unicodeDecodeError = PyError.unicodeDecodeError ∧
      ∃ raw, (some (FileBytes.fernetToken (PlainBytes.nonUtf8 [255])) :
        Option FileBytes) = some (.fernetToken (.nonUtf8 raw))) := by
  constructor
  · exact (C5_load_failure_handling (some (.foreign "junk"))).2.1
      (.foreign "junk") rfl (Or.inl rfl)
  · exact (C5_load_failure_handling
      (some (.fernetToken (.nonUtf8 [255])))).2.2 .unicodeDecodeError rfl

/-- C5 counterexample: the claim "for every possible byte content, load()
returns absent on any decryption or parse failure rather than raising" is
false on the code: a valid Fernet token under the process-local key (the
key is derivable from machine attributes) whose payload is the single
non-UTF-8 byte 0xff makes `plaintext.decode("utf-8")` raise a
`UnicodeDecodeError` that the `except (InvalidToken, json.JSONDecodeError)`
clause does not catch, so the call raises instead of returning absent. -/
theorem C5_nonUtf8_raises :
    load_cookies (some (.fernetToken (.nonUtf8 [255]))) =
      .error .unicodeDecodeError ∧
    load_cookies (some (.fernetToken (.nonUtf8 [255]))) ≠ .ok none := by
  exact ⟨rfl, by decide⟩

/-- C2 (amended): for every task record found in the global table, a query
carrying a *non-empty* token different from the owning session reports
NotFound, while a query with no token, or with the owning session's token,
returns the record snapshot.  (The code tests Python truthiness of the
cookie, so an empty-string token behaves like an absent one.) -/
theorem C2_progress_isolation (s : ServerState) (tid : String) (t : TaskData)
    (cookie : Option String) (hlook : globalLookup s tid = some t) :
    (∀ c, cookie = some c → c ≠ "" → t.session_id ≠ c →
        download_progress s tid cookie = .notFound) ∧
    ((cookie = none ∨ cookie = some t.session_id) →
        download_progress s tid cookie = .snapshot (stripSession t)) := by
  constructor
  · intro c hc hne hown
    subst hc
    simp [download_progress, hlook, hne, hown]
  · rintro (rfl | rfl)
    · simp [download_progress, hlook]
    · simp [download_progress, hlook]

/-- Witness for C2 (amended): foreign non-empty token is NotFound, owner
token and no token both see the record. -/
theorem C2_progress_isolation_witness :
    download_progress oneTaskState "t1" (some "sessB") = .notFound ∧
    download_progress oneTaskState "t1" (some "sessA") =
      .snapshot (stripSession (newTaskData "sessA")) ∧
    download_progress oneTaskState "t1" none =
      .snapshot (stripSession (newTaskData "sessA")) := by
  refine ⟨?_, ?_, ?_⟩
  · exact (C2_progress_isolation oneTaskState "t1" (newTaskData "sessA") (some "sessB")
      (by decide)).1 "sessB" rfl (by decide) (by decide)
  · exact (C2_progress_isolation oneTaskState "t1" (newTaskData "sessA") (some "sessA")
      (by decide)).2 (Or.inr rfl)
  · exact (C2_progress_isolation oneTaskState "t1" (newTaskData "sessA") none
      (by decide)).2 (Or.inl rfl)

/-- C2 counterexample: the claim as stated fails for a supplied *empty*
token: the record is owned by "sessA", the requester supplies the token ""
(which differs from "sessA"), yet the snapshot is returned instead of
NotFound, because the code tests Python truthiness of the cookie value. -/
theorem C2_empty_token_counterexample :
    globalLookup oneTaskState "t1" = some (newTaskData "sessA") ∧
    (newTaskData "sessA").session_id ≠ "" ∧
    download_progress oneTaskState "t1" (some "") ≠ .notFound ∧
    download_progress oneTaskState "t1" (some "") =
      .snapshot (stripSession (newTaskData "sessA")) := by
  refine ⟨by decide, by decide, by decide, by decide⟩

/-- C10: removing a finished task record in the periodic cleanup deletes it
only from the global task table: the owning session's task mapping and the
record heap are untouched and still hold the task, while every progress
query (with any cookie) now reports NotFound because it consults only the
global table. -/
theorem C10_cleanup_frame (s : ServerState) (tid sid : String) (t : TaskData)
    (cookie : Option String)
    (hglob : globalLookup s tid = some t)
    (hfin : taskFinished t = true)
    (hsess : ∃ ts, lookupA s.sessions sid = some ts ∧ tid ∈ ts) :
    tid ∉ (periodic_cleanup_tasks s).downloadTasks ∧
    (periodic_cleanup_tasks s).sessions = s.sessions ∧
    (periodic_cleanup_tasks s).heap = s.heap ∧
    (∃ ts, lookupA (periodic_cleanup_tasks s).sessions sid = some ts ∧ tid ∈ ts) ∧
    download_progress (periodic_cleanup_tasks s) tid cookie = .notFound := by
  have hmem : tid ∈ s.downloadTasks := by
    by_contra hmem
    simp [globalLookup, hmem] at hglob
  have hheap : lookupA s.heap tid = some t := by
    simpa [globalLookup, hmem] using hglob
  have hnot : tid ∉ (periodic_cleanup_tasks s).downloadTasks := by
    intro hin
    have := List.of_mem_filter hin
    simp [hheap, hfin] at this
  refine ⟨hnot, rfl, rfl, hsess, ?_⟩
  simp [download_progress, globalLookup, hnot]

theorem lookupA_cons_self {β : Type} (k : String) (v : β) (l : List (String × β)) :
    lookupA ((k, v) :: l) k = some v := by
  simp [lookupA]

theorem lookupA_cons_ne {β : Type} {k key : String} (v : β) (l : List (String × β))
    (h : k ≠ key) : lookupA ((k, v) :: l) key = lookupA l key := by
  simp [lookupA, h]

/-- Admitting a fresh task increments the active count by exactly one. -/
theorem countActive_insert (s : ServerState) (sid tid : String)
    (hfresh : tid ∉ s.downloadTasks) :
    countActive
      { heap := (tid, newTaskData sid) :: s.heap
        downloadTasks := tid :: s.downloadTasks
        sessions := addSessionTask s.sessions sid tid } = countActive s + 1 := by
  unfold countActive
  have hcongr : ∀ x ∈ s.downloadTasks,
      (match lookupA ((tid, newTaskData sid) :: s.heap) x with
        | some t => taskActive t
        | none => false) =
      (match lookupA s.heap x with
        | some t => taskActive t
        | none => false) := by
    intro x hx
    have hne : tid ≠ x := fun h => hfresh (h ▸ hx)
    rw [lookupA_cons_ne _ _ hne]
  simp only [List.filter_cons]
  rw [List.filter_congr hcongr]
  simp [lookupA_cons_self, newTaskData, taskActive]

/-- C1: with the merge tool available, a submit arriving while three tasks
are in {starting, downloading} returns Busy and leaves the state untouched;
a submit arriving while fewer than three are active returns the fresh task
id, registers exactly one new record with status "starting", and the
process-wide active count never exceeds `MAX_CONCURRENT_DOWNLOADS`. -/
theorem C1_admission_control (s : ServerState) (sid tid : String)
    (hfresh : tid ∉ s.downloadTasks) :
    (MAX_CONCURRENT_DOWNLOADS ≤ countActive s →
        start_download s true sid tid = (.busy, s)) ∧
    (countActive s < MAX_CONCURRENT_DOWNLOADS →
        (start_download s true sid tid).1 = .accepted tid ∧
        globalLookup (start_download s true sid tid).2 tid = some (newTaskData sid) ∧
        (start_download s true sid tid).2.downloadTasks = tid :: s.downloadTasks ∧
        countActive (start_download s true sid tid).2 = countActive s + 1) ∧
    (countActive s ≤ MAX_CONCURRENT_DOWNLOADS →
        countActive (start_download s true sid tid).2 ≤ MAX_CONCURRENT_DOWNLOADS) := by
  refine ⟨?_, ?_, ?_⟩
  · intro h
    simp [start_download, h]
  · intro h
    have hnot : ¬ MAX_CONCURRENT_DOWNLOADS ≤ countActive s := Nat.not_le.mpr h
    refine ⟨by simp [start_download, hnot], ?_, by simp [start_download, hnot], ?_⟩
    · simp [start_download, hnot, globalLookup, lookupA_cons_self]
    · simp only [start_download, if_neg hnot]
      simpa using countActive_insert s sid tid hfresh
  · intro h
    by_cases hc : MAX_CONCURRENT_DOWNLOADS ≤ countActive s
    · simp [start_download, hc, h]
    · have hlt : countActive s < MAX_CONCURRENT_DOWNLOADS := Nat.lt_of_not_le hc
      simp only [start_download, if_neg hc]
      have := countActive_insert s sid tid hfresh
      simp only [Bool.true_eq_false, if_false]
      simpa [this] using hlt

/-- Witness for C1: a fourth submit against three active tasks is Busy; a
submit against an empty table is accepted. -/
theorem C1_admission_control_witness :
    start_download busyState true "s1" "d" = (.busy, busyState) ∧
    (start_download emptyState true "s1" "t1").1 = .accepted "t1" := by
  constructor
  · exact (C1_admission_control busyState "s1" "d" (by decide)).1 (by decide)
  · exact ((C1_admission_control emptyState "s1" "t1" (by decide)).2.1 (by decide)).1

/-- A size-cap abort during the chunk loop always unlinks the file. -/
theorem runChunks_sizeExceeded_file (total : Nat) :
    ∀ (downloaded : Nat) (events : List StreamEvent),
      (runChunks total downloaded events).1 = .error .sizeExceeded →
      (runChunks total downloaded events).2.1 = none := by
  intro downloaded events
  induction events generalizing downloaded with
  | nil => intro h; simp [runChunks] at h
  | cons e rest ih =>
    cases e with
    | netError => intro h; simp [runChunks] at h
    | chunk n =>
      intro h
      by_cases hc : MAX_FILE_SIZE < downloaded + n
      · simp [runChunks, hc]
      · simp only [runChunks, if_neg hc] at h ⊢
        exact ih (downloaded + n) h

/-- If the loop never sees a network failure, the running byte count starts
within the cap and the chunks add up past the cap, the loop fails with
sizeExceeded and the file is gone. -/
theorem runChunks_sum_exceeds (total : Nat) :
    ∀ (downloaded : Nat) (events : List StreamEvent),
      (∀ e ∈ events, e ≠ StreamEvent.netError) →
      downloaded ≤ MAX_FILE_SIZE →
      MAX_FILE_SIZE < downloaded + chunkSum events →
      (runChunks total downloaded events).1 = .error .sizeExceeded ∧
      (runChunks total downloaded events).2.1 = none := by
  intro downloaded events
  induction events generalizing downloaded with
  | nil =>
    intro _ hle hgt
    simp [chunkSum] at hgt
    exact absurd hle (Nat.not_le.mpr hgt)
  | cons e rest ih =>
    cases e with
    | netError =>
      intro hne _ _
      exact absurd rfl (hne .netError (by simp))
    | chunk n =>
      intro hne hle hgt
      by_cases hc : MAX_FILE_SIZE < downloaded + n
      · simp [runChunks, hc]
      · simp only [runChunks, if_neg hc]
        refine ih (downloaded + n) (fun e he => hne e (by simp [he])) (Nat.not_lt.mp hc) ?_
        simpa [chunkSum, Nat.add_assoc] using hgt

/-- C3 (amended): a fetch that fails because the declared size exceeds the
5 GiB cap aborts with a size error before the destination is opened (any
pre-existing file is untouched, no partial file is written), and a fetch
whose actual downloaded bytes exceed the cap deletes the partial file and
fails with a size-exceeded error; indeed whenever the outcome is
sizeExceeded no file remains.  (A network failure mid-stream, by contrast,
leaves the partial file behind — see the counterexample.) -/
theorem C3_size_cap_cleanup (pre : Option Nat) (resp : StreamResp) :
    ((download_stream pre resp).result = .error .sizeExceeded →
        (download_stream pre resp).file = none) ∧
    (resp.statusOk = true → MAX_FILE_SIZE < resp.contentLength →
        (download_stream pre resp).result = .error .sizeDeclared ∧
        (download_stream pre resp).file = pre) ∧
    (resp.statusOk = true → resp.contentLength ≤ MAX_FILE_SIZE →
        (∀ e ∈ resp.events, e ≠ StreamEvent.netError) →
        MAX_FILE_SIZE < chunkSum resp.events →
        (download_stream pre resp).result = .error .sizeExceeded ∧
        (download_stream pre resp).file = none) := by
  refine ⟨?_, ?_, ?_⟩
  · intro h
    by_cases hs : resp.statusOk = false
    · simp [download_stream, hs] at h
    · by_cases hl : MAX_FILE_SIZE < resp.contentLength
      · simp [download_stream, hs, hl] at h
      · simp only [download_stream, if_neg hs, if_neg hl] at h ⊢
        exact runChunks_sizeExceeded_file resp.contentLength 0 resp.events h
  · intro hs hl
    simp [download_stream, hs, hl]
  · intro hs hl hne hsum
    have hnl : ¬ MAX_FILE_SIZE < resp.contentLength := Nat.not_lt.mpr hl
    have := runChunks_sum_exceeds resp.contentLength 0 resp.events hne
      (Nat.zero_le _) (by simpa using hsum)
    simp only [download_stream, hs, Bool.true_eq_false, if_false, if_neg hnl]
    exact this

/-- Witness for C3 (amended): a declared 6 GiB body is rejected leaving the
pre-existing file alone, and a body that streams past 5 GiB in two chunks is
aborted with the partial file deleted. -/
theorem C3_size_cap_cleanup_witness :
    ((download_stream (some 7) ⟨true, 6442450944, []⟩).result = .error .sizeDeclared ∧
      (download_stream (some 7) ⟨true, 6442450944, []⟩).file = some 7) ∧
    ((download_stream none ⟨true, 0, [.chunk 5368709120, .chunk 1]⟩).result =
        .error .sizeExceeded ∧
      (download_stream none ⟨true, 0, [.chunk 5368709120, .chunk 1]⟩).file = none) := by
  constructor
  · exact (C3_size_cap_cleanup (some 7) ⟨true, 6442450944, []⟩).2.1 rfl (by decide)
  · exact (C3_size_cap_cleanup none ⟨true, 0, [.chunk 5368709120, .chunk 1]⟩).2.2 rfl
      (by decide) (by decide) (by decide)

/-- C3 counterexample: the claim "a failed fetch leaves no file behind, for
any reason including network errors mid-stream" is false: a stream that
delivers 10 bytes and then fails with a network error leaves the 10-byte
partial file at the destination. -/
theorem C3_netError_leaves_file :
    (download_stream none ⟨true, 100, [.chunk 10, .netError]⟩).result = .error .network ∧
    (download_stream none ⟨true, 100, [.chunk 10, .netError]⟩).file = some 10 ∧
    (download_stream none ⟨true, 100, [.chunk 10, .netError]⟩).file ≠ none := by
  refine ⟨by decide, by decide, by decide⟩

theorem ratFloor_eq (q : ℚ) : ratFloor q = ⌊q⌋ := by
  rw [ratFloor, Rat.floor_def]

theorem roundHalfEven_nonneg (q : ℚ) (h : 0 ≤ q) : 0 ≤ roundHalfEven q := by
  have hf : (0 : ℤ) ≤ ⌊q⌋ := Int.floor_nonneg.mpr h
  unfold roundHalfEven
  rw [ratFloor_eq]
  split
  · exact hf
  · split
    · omega
    · split
      · exact hf
      · omega

theorem roundHalfEven_le (q : ℚ) (n : ℤ) (h : q ≤ n) : roundHalfEven q ≤ n := by
  have hf : ⌊q⌋ ≤ n := by
    calc ⌊q⌋ ≤ ⌊(n : ℚ)⌋ := Int.floor_le_floor h
    _ = n := Int.floor_intCast n
  have hkey : (1 : ℚ)/2 ≤ q - ⌊q⌋ → ⌊q⌋ + 1 ≤ n := by
    intro hge
    rcases Int.lt_or_le ⌊q⌋ n with hlt | hle
    · omega
    · have hqn : ⌊q⌋ = n := le_antisymm hf hle
      have : q - (⌊q⌋ : ℚ) ≤ 0 := by
        rw [hqn]
        simpa using sub_nonpos.mpr h
      linarith
  unfold roundHalfEven
  rw [ratFloor_eq]
  split
  · exact hf
  · rename_i h1
    split
    · rename_i h2
      exact hkey (le_of_lt h2)
    · split
      · exact hf
      · exact hkey (le_of_not_lt h1)

theorem pyRound1_bounds (q : ℚ) (h0 : 0 ≤ q) (h100 : q ≤ 100) :
    0 ≤ pyRound1 q ∧ pyRound1 q ≤ 100 := by
  have h0' : (0 : ℤ) ≤ roundHalfEven (q * 10) :=
    roundHalfEven_nonneg _ (by positivity)
  have h1000 : roundHalfEven (q * 10) ≤ 1000 := by
    refine roundHalfEven_le _ 1000 ?_
    push_cast
    linarith
  unfold pyRound1
  constructor
  · positivity
  · rw [div_le_iff₀ (by norm_num)]
    calc ((roundHalfEven (q * 10) : ℚ)) ≤ (1000 : ℤ) := by exact_mod_cast h1000
    _ = 100 * 10 := by norm_num

theorem percentOf_bounds (d total : Nat) (h0 : 0 < total) (hle : d ≤ total) :
    0 ≤ percentOf d total ∧ percentOf d total ≤ 100 := by
  have htot : (0 : ℚ) < total := by exact_mod_cast h0
  have hq0 : (0 : ℚ) ≤ (d : ℚ) / (total : ℚ) * 100 := by positivity
  have hq100 : (d : ℚ) / (total : ℚ) * 100 ≤ 100 := by
    have hd : (d : ℚ) ≤ total := by exact_mod_cast hle
    have : (d : ℚ) / (total : ℚ) ≤ 1 := (div_le_one htot).mpr hd
    linarith
  exact pyRound1_bounds _ hq0 hq100

/-- Every percent value the chunk loop reports stays in [0, 100] as long as
the bytes delivered so far plus the remaining chunks do not exceed the
declared total. -/
theorem runChunks_progress_bounds (total : Nat) :
    ∀ (downloaded : Nat) (events : List StreamEvent),
      downloaded + chunkSum events ≤ total →
      ∀ p ∈ (runChunks total downloaded events).2.2, 0 ≤ p ∧ p ≤ 100 := by
  intro downloaded events
  induction events generalizing downloaded with
  | nil => intro _ p hp; simp [runChunks] at hp
  | cons e rest ih =>
    cases e with
    | netError => intro _ p hp; simp [runChunks] at hp
    | chunk n =>
      intro hle p hp
      have hrest : downloaded + n + chunkSum rest ≤ total := by
        simpa [chunkSum, Nat.add_assoc] using hle
      by_cases hc : MAX_FILE_SIZE < downloaded + n
      · simp [runChunks, hc] at hp
      · simp only [runChunks, if_neg hc] at hp
        by_cases ht : 0 < total
        · simp only [if_pos ht, List.mem_cons] at hp
          rcases hp with rfl | hp
          · exact percentOf_bounds (downloaded + n) total ht (by omega)
          · exact ih (downloaded + n) hrest p hp
        · simp only [if_neg ht] at hp
          exact ih (downloaded + n) hrest p hp

/-- C8 (amended): every value ever held by a progress field (the initial 0
and every percent passed to the progress callback) lies in [0, 100],
provided the stream delivers no more bytes than its declared
content-length.  (When the body exceeds the declared length the percent
exceeds 100 — see the counterexample.) -/
theorem C8_progress_bounds (pre : Option Nat) (resp : StreamResp)
    (hbound : chunkSum resp.events ≤ resp.contentLength) :
    ∀ p, (p = 0 ∨ p ∈ (download_stream pre resp).progress) → 0 ≤ p ∧ p ≤ 100 := by
  intro p hp
  rcases hp with rfl | hp
  · norm_num
  · by_cases hs : resp.statusOk = false
    · simp [download_stream, hs] at hp
    · by_cases hl : MAX_FILE_SIZE < resp.contentLength
      · simp [download_stream, hs, hl] at hp
      · simp only [download_stream, if_neg hs, if_neg hl] at hp
        exact runChunks_progress_bounds resp.contentLength 0 resp.events
          (by simpa using hbound) p hp

/-- Witness for C8 (amended): a 100-byte body declared as 100 bytes reports
50 at mid-stream, which the theorem bounds inside [0, 100]. -/
theorem C8_progress_bounds_witness :
    (0 : ℚ) ≤ 50 ∧ (50 : ℚ) ≤ 100 :=
  C8_progress_bounds none ⟨true, 100, [.chunk 50, .chunk 50]⟩ (by decide) 50
    (Or.inr (by with_unfolding_all decide))

/-- C8 counterexample: the claim "progress ∈ [0,100] for all possible
downloaded-byte counts and declared content-length values" is false: a
stream declaring 10 bytes but delivering a 20-byte chunk drives the reported
percent to 200. -/
theorem C8_percent_over_100 :
    (download_stream none ⟨true, 10, [.chunk 20]⟩).progress = [200] ∧
    ¬ ((200 : ℚ) ≤ 100) := by
  constructor
  · with_unfolding_all decide
  · norm_num

instance : IsTotal Variant qualityGE :=
  ⟨fun a b => (Nat.le_total a.id b.id).symm⟩

instance : IsTrans Variant qualityGE :=
  ⟨fun _ _ _ hab hbc => le_trans hbc hab⟩

/-- In a descending-sorted list, the first element within the quality budget
is the best one within it. -/
theorem find_le_is_max (q : Nat) :
    ∀ (l : List Variant), l.Sorted qualityGE →
      ∀ v, l.find? (fun v => decide (v.id ≤ q)) = some v →
      v.id ≤ q ∧ ∀ w ∈ l, w.id ≤ q → w.id ≤ v.id := by
  intro l
  induction l with
  | nil => intro _ v h; simp at h
  | cons x xs ih =>
    intro hs v h
    rw [List.sorted_cons] at hs
    by_cases hx : x.id ≤ q
    · have hvx : v = x := by
        rw [List.find?_cons_of_pos _ (by simpa using hx)] at h
        exact (Option.some.inj h).symm
      subst hvx
      refine ⟨hx, ?_⟩
      intro w hw _
      rcases List.mem_cons.mp hw with rfl | hw
      · exact le_refl _
      · exact hs.1 w hw
    · rw [List.find?_cons_of_neg _ (by simpa using hx)] at h
      have := ih hs.2 v h
      refine ⟨this.1, ?_⟩
      intro w hw hwq
      rcases List.mem_cons.mp hw with rfl | hw
      · exact absurd hwq hx
      · exact this.2 w hw hwq

/-- In a descending-sorted list, the last element is minimal. -/
theorem getLast_is_min :
    ∀ (l : List Variant), l.Sorted qualityGE →
      ∀ v, l.getLast? = some v → v ∈ l ∧ ∀ w ∈ l, v.id ≤ w.id := by
  intro l
  induction l with
  | nil => intro _ v h; simp at h
  | cons x xs ih =>
    intro hs v h
    rw [List.sorted_cons] at hs
    cases xs with
    | nil =>
      simp only [List.getLast?_singleton, Option.some.injEq] at h
      subst h
      exact ⟨by simp, by simp⟩
    | cons y ys =>
      rw [List.getLast?_cons_cons] at h
      have := ih hs.2 v h
      refine ⟨List.mem_cons_of_mem x this.1, ?_⟩
      intro w hw
      rcases List.mem_cons.mp hw with rfl | hw
      · exact hs.1 v this.1
      · exact this.2 w hw

/-- C6: for every requested quality and non-empty variant list, the selected
variant is a listed one whose code is the greatest code not exceeding the
request; when every available code exceeds the request, the lowest-quality
variant is selected. -/
theorem C6_quality_selection (variants : List Variant) (q : Nat)
    (hne : variants ≠ []) :
    ∃ v, selectVideoStream variants q = some v ∧ v ∈ variants ∧
      ((∃ w ∈ variants, w.id ≤ q) →
          v.id ≤ q ∧ ∀ w ∈ variants, w.id ≤ q → w.id ≤ v.id) ∧
      ((∀ w ∈ variants, q < w.id) → ∀ w ∈ variants, v.id ≤ w.id) := by
  have hperm := List.perm_insertionSort qualityGE variants
  have hsorted := List.sorted_insertionSort qualityGE variants
  rw [show List.insertionSort qualityGE variants = sortedVideoStreams variants from rfl]
    at hperm hsorted
  cases hfind : (sortedVideoStreams variants).find? (fun v => decide (v.id ≤ q)) with
  | some v =>
    have hmax := find_le_is_max q (sortedVideoStreams variants) hsorted v hfind
    refine ⟨v, ?_, ?_, ?_, ?_⟩
    · simp [selectVideoStream, hfind]
    · exact hperm.mem_iff.mp (List.mem_of_find?_eq_some hfind)
    · intro _
      exact ⟨hmax.1, fun w hw hwq => hmax.2 w (hperm.mem_iff.mpr hw) hwq⟩
    · intro hall
      have hv : v ∈ variants := hperm.mem_iff.mp (List.mem_of_find?_eq_some hfind)
      exact absurd hmax.1 (Nat.not_le.mpr (hall v hv))
  | none =>
    have hsne : sortedVideoStreams variants ≠ [] := by
      intro hnil
      exact hne (List.Perm.eq_nil (hnil ▸ hperm).symm)
    cases hlast : (sortedVideoStreams variants).getLast? with
    | none => exact absurd (List.getLast?_eq_none_iff.mp hlast) hsne
    | some v =>
      have hmin := getLast_is_min (sortedVideoStreams variants) hsorted v hlast
      refine ⟨v, ?_, hperm.mem_iff.mp hmin.1, ?_, ?_⟩
      · simp [selectVideoStream, hfind, hlast]
      · intro hex
        obtain ⟨w, hw, hwq⟩ := hex
        have := List.find?_eq_none.mp hfind w (hperm.mem_iff.mpr hw)
        simp [hwq] at this
      · intro _
        exact fun w hw => hmin.2 w (hperm.mem_iff.mpr hw)

/-- Stripping only removes characters. -/
theorem pyStrip_subset (spaceChar : Char → Bool) (l : List Char) :
    ∀ c ∈ pyStrip spaceChar l, c ∈ l := by
  intro c hc
  unfold pyStrip at hc
  rw [List.mem_reverse] at hc
  have h1 := (List.dropWhile_sublist _).subset hc
  rw [List.mem_reverse] at h1
  exact (List.dropWhile_sublist _).subset h1

/-- Every character of the sanitized title passed the keep-filter. -/
theorem sanitizeTitle_chars (wordChar spaceChar : Char → Bool) (title : List Char) :
    ∀ c ∈ sanitizeTitle wordChar spaceChar title,
      keepChar wordChar spaceChar c = true := by
  intro c hc
  unfold sanitizeTitle at hc
  have h1 := (List.take_sublist 100 _).subset hc
  have h2 := pyStrip_subset spaceChar _ c h1
  exact (List.mem_filter.mp h2).2

/-- C7: for every title, the sanitized output stem has only word/space/
hyphen characters, is at most 100 characters long, and contains no '.',
'/' or '\\' (hence no directory-traversal component); when the title
sanitizes to nothing, the bvid is used instead.  The Unicode classes `\w`
and `\s` are abstract parameters constrained not to accept the three
path-dangerous ASCII characters. -/
theorem C7_filename_sanitization (wordChar spaceChar : Char → Bool)
    (title bvid : List Char)
    (hword : wordChar '.' = false ∧ wordChar '/' = false ∧ wordChar '\\' = false)
    (hspace : spaceChar '.' = false ∧ spaceChar '/' = false ∧ spaceChar '\\' = false) :
    (sanitizeTitle wordChar spaceChar title = [] →
        safeTitleOr wordChar spaceChar title bvid = bvid) ∧
    (sanitizeTitle wordChar spaceChar title ≠ [] →
        safeTitleOr wordChar spaceChar title bvid = sanitizeTitle wordChar spaceChar title ∧
        (safeTitleOr wordChar spaceChar title bvid).length ≤ 100 ∧
        (∀ c ∈ safeTitleOr wordChar spaceChar title bvid,
            wordChar c = true ∨ spaceChar c = true ∨ c = '-') ∧
        '.' ∉ safeTitleOr wordChar spaceChar title bvid ∧
        '/' ∉ safeTitleOr wordChar spaceChar title bvid ∧
        '\\' ∉ safeTitleOr wordChar spaceChar title bvid) := by
  constructor
  · intro h
    simp [safeTitleOr, h]
  · intro h
    have heq : safeTitleOr wordChar spaceChar title bvid =
        sanitizeTitle wordChar spaceChar title := by
      simp [safeTitleOr, h]
    have hkeep := sanitizeTitle_chars wordChar spaceChar title
    refine ⟨heq, ?_, ?_, ?_, ?_, ?_⟩
    · rw [heq]
      unfold sanitizeTitle
      exact List.length_take_le 100 _
    · intro c hc
      rw [heq] at hc
      have := hkeep c hc
      unfold keepChar at this
      rcases Bool.or_eq_true_iff.mp this with h1 | h2
      · rcases Bool.or_eq_true_iff.mp h1 with hw | hs
        · exact Or.inl hw
        · exact Or.inr (Or.inl hs)
      · exact Or.inr (Or.inr (of_decide_eq_true h2))
    · intro hc
      rw [heq] at hc
      have := hkeep '.' hc
      simp [keepChar, hword.1, hspace.1] at this
    · intro hc
      rw [heq] at hc
      have := hkeep '/' hc
      simp [keepChar, hword.2.1, hspace.2.1] at this
    · intro hc
      rw [heq] at hc
      have := hkeep '\\' hc
      simp [keepChar, hword.2.2, hspace.2.2] at this

/-- Witness for C7 at the spec's example title `"../evil:name?.mp4"` with
the ASCII character classes: the sanitized stem is `"evilnamemp4"`. -/
theorem C7_filename_sanitization_witness :
    safeTitleOr asciiWordChar asciiSpaceChar evilTitle "BV1xx".toList =
      sanitizeTitle asciiWordChar asciiSpaceChar evilTitle ∧
    (safeTitleOr asciiWordChar asciiSpaceChar evilTitle "BV1xx".toList).length ≤ 100 ∧
    (∀ c ∈ safeTitleOr asciiWordChar asciiSpaceChar evilTitle "BV1xx".toList,
        asciiWordChar c = true ∨ asciiSpaceChar c = true ∨ c = '-') ∧
    '.' ∉ safeTitleOr asciiWordChar asciiSpaceChar evilTitle "BV1xx".toList ∧
    '/' ∉ safeTitleOr asciiWordChar asciiSpaceChar evilTitle "BV1xx".toList ∧
    '\\' ∉ safeTitleOr asciiWordChar asciiSpaceChar evilTitle "BV1xx".toList :=
  (C7_filename_sanitization asciiWordChar asciiSpaceChar evilTitle "BV1xx".toList
    (by decide) (by decide)).2 (by decide)

/-- Witness for C6 at the spec's example: codes {120,80,64,32,16} with
requested quality 70 (the theorem then forces the selected code to be 64). -/
theorem C6_quality_selection_witness :
    ∃ v, selectVideoStream variants5 70 = some v ∧ v ∈ variants5 ∧
      ((∃ w ∈ variants5, w.id ≤ 70) →
          v.id ≤ 70 ∧ ∀ w ∈ variants5, w.id ≤ 70 → w.id ≤ v.id) ∧
      ((∀ w ∈ variants5, 70 < w.id) → ∀ w ∈ variants5, v.id ≤ w.id) :=
  C6_quality_selection variants5 70 (by decide)

theorem replicate_head (d : TaskStatus) (a : Nat) (tail : List TaskStatus) :
    (d :: List.replicate a d) ++ tail = List.replicate (a + 1) d ++ tail := rfl

theorem replicate_mid (d : TaskStatus) (a : Nat) (tail : List TaskStatus) :
    List.replicate a d ++ (d :: tail) = List.replicate (a + 1) d ++ tail := by
  rw [List.replicate_succ', List.append_assoc]
  rfl

theorem replicate_glue2 (d : TaskStatus) (a b : Nat) (tail : List TaskStatus) :
    List.replicate a d ++ (List.replicate b d ++ tail) =
      List.replicate (a + b) d ++ tail := by
  rw [← List.append_assoc, ← List.replicate_add]

/-- Progress callbacks never change the status: the snapshot segment is a
constant-status run and ends where it started. -/
theorem map_status_progressSnaps (upd : TaskData → ℚ → TaskData)
    (hupd : ∀ t p, (upd t p).status = t.status) :
    ∀ (t : TaskData) (ps : List ℚ),
      ((progressSnaps upd t ps).1).map TaskData.status =
        List.replicate ps.length t.status ∧
      (progressSnaps upd t ps).2.status = t.status := by
  intro t ps
  induction ps generalizing t with
  | nil => simp [progressSnaps]
  | cons p ps ih =>
    have h := ih (upd t p)
    simp [progressSnaps, List.replicate_succ, h.1, h.2, hupd]

/-- Status history from the merge step, given status "downloading". -/
theorem map_status_mergeTrace (outName : List Char) (mergeOk : Bool) (t : TaskData)
    (h : t.status = .downloading) :
    (mergeTrace outName mergeOk t).map TaskData.status =
        [.downloading, .completed, .completed, .completed] ∨
    (mergeTrace outName mergeOk t).map TaskData.status =
        [.downloading, .error, .error] := by
  cases mergeOk with
  | true => left; simp [mergeTrace, h]
  | false => right; simp [mergeTrace, errorTail, h]

/-- Status history from the audio step, given status "downloading". -/
theorem map_status_audioTrace (outName : List Char) (env : RunEnv) (t : TaskData)
    (h : t.status = .downloading) :
    ∃ b : Nat,
      (audioTrace outName env t).map TaskData.status =
          List.replicate (b + 1) .downloading ++ [.completed, .completed, .completed] ∨
      (audioTrace outName env t).map TaskData.status =
          List.replicate (b + 1) .downloading ++ [.error, .error] := by
  have ha := map_status_progressSnaps setAudioProgress (fun _ _ => rfl)
    { t with phase := .audio } (download_stream none env.audioResp).progress
  have hstat : ({ t with phase := TaskPhase.audio } : TaskData).status = .downloading := h
  cases hres : (download_stream none env.audioResp).result with
  | error e =>
    refine ⟨(download_stream none env.audioResp).progress.length, Or.inr ?_⟩
    simp only [audioTrace, hres, List.map_cons, List.map_append, errorTail,
      List.map_nil]
    rw [ha.1, hstat, replicate_head]
  | ok u =>
    have hm := map_status_mergeTrace outName env.mergeOk
      (progressSnaps setAudioProgress { t with phase := .audio }
        (download_stream none env.audioResp).progress).2
      (ha.2.trans hstat)
    rcases hm with hm | hm
    · refine ⟨(download_stream none env.audioResp).progress.length + 1, Or.inl ?_⟩
      simp only [audioTrace, hres, List.map_cons, List.map_append]
      rw [ha.1, hm, hstat, replicate_head, replicate_mid]
    · refine ⟨(download_stream none env.audioResp).progress.length + 1, Or.inr ?_⟩
      simp only [audioTrace, hres, List.map_cons, List.map_append]
      rw [ha.1, hm, hstat, replicate_head, replicate_mid]

/-- Status history from the video step, given status "starting". -/
theorem map_status_videoTrace (outName : List Char) (env : RunEnv) (t0 : TaskData)
    (h : t0.status = .starting) :
    ∃ k : Nat,
      (videoTrace outName env t0).map TaskData.status =
          .starting :: (List.replicate (k + 1) .downloading ++
            [.completed, .completed, .completed]) ∨
      (videoTrace outName env t0).map TaskData.status =
          .starting :: (List.replicate (k + 1) .downloading ++ [.error, .error]) := by
  have hv := map_status_progressSnaps setVideoProgress (fun _ _ => rfl)
    { { t0 with phase := .video } with status := .downloading }
    (download_stream none env.videoResp).progress
  dsimp only at hv
  cases hres : (download_stream none env.videoResp).result with
  | error e =>
    refine ⟨(download_stream none env.videoResp).progress.length, Or.inr ?_⟩
    simp only [videoTrace, hres, List.map_cons, List.map_append, errorTail,
      List.map_nil]
    rw [hv.1, h]
    rfl
  | ok u =>
    have ha := map_status_audioTrace outName env _ hv.2
    obtain ⟨b, hm | hm⟩ := ha
    · refine ⟨(download_stream none env.videoResp).progress.length + (b + 1), Or.inl ?_⟩
      simp only [videoTrace, hres, List.map_cons, List.map_append]
      rw [hv.1, hm, h, List.cons_append, List.cons_append, replicate_glue2]
      rfl
    · refine ⟨(download_stream none env.videoResp).progress.length + (b + 1), Or.inr ?_⟩
      simp only [videoTrace, hres, List.map_cons, List.map_append]
      rw [hv.1, hm, h, List.cons_append, List.cons_append, replicate_glue2]
      rfl

/-- The status history of one pipeline run has one of three shapes: an
immediate metadata failure, a failure after downloading began, or success. -/
theorem runDownloadTrace_status_shape (wordChar spaceChar : Char → Bool)
    (env : RunEnv) (quality : Nat) (sid : String) :
    (runDownloadTrace wordChar spaceChar env quality (newTaskData sid)).map TaskData.status
        = [.starting, .error, .error] ∨
    (∃ k : Nat,
      (runDownloadTrace wordChar spaceChar env quality (newTaskData sid)).map TaskData.status
        = .starting :: .starting ::
            (List.replicate (k + 1) .downloading ++ [.error, .error])) ∨
    (∃ k : Nat,
      (runDownloadTrace wordChar spaceChar env quality (newTaskData sid)).map TaskData.status
        = .starting :: .starting ::
            (List.replicate (k + 1) .downloading ++
              [.completed, .completed, .completed])) := by
  unfold runDownloadTrace
  cases env.bvid with
  | none => left; rfl
  | some bvid =>
  dsimp only
  cases env.videoTitle with
  | none => left; rfl
  | some title =>
  dsimp only
  cases env.playUrl with
  | none => left; rfl
  | some streams =>
  dsimp only
  cases selectVideoStream streams.1 quality with
  | none =>
    cases streams.2.head? with
    | none => left; rfl
    | some astream => left; rfl
  | some vstream =>
  cases streams.2.head? with
  | none => left; rfl
  | some astream =>
  dsimp only
  obtain ⟨k, hm | hm⟩ := map_status_videoTrace
    (safeTitleOr wordChar spaceChar title bvid ++ ['.', 'm', 'p', '4']) env
    (newTaskData sid) rfl
  · right; right
    exact ⟨k, by rw [List.map_cons, hm]; rfl⟩
  · right; left
    exact ⟨k, by rw [List.map_cons, hm]; rfl⟩
theorem chain_replicate_append (d : TaskStatus) (tail : List TaskStatus) (k : Nat)
    (htail : List.Chain' stepOk (d :: tail)) :
    List.Chain' stepOk (List.replicate (k + 1) d ++ tail) := by
  induction k with
  | zero => simpa using htail
  | succ k ih =>
    rw [List.replicate_succ, List.cons_append, List.chain'_cons']
    refine ⟨?_, ih⟩
    intro y hy
    rw [List.replicate_succ, List.cons_append] at hy
    simp only [List.head?_cons, Option.mem_def, Option.some.injEq] at hy
    subst hy
    exact Or.inl rfl

theorem chain_starting_replicate (k : Nat) (tail : List TaskStatus)
    (htail : List.Chain' stepOk (.downloading :: tail)) :
    List.Chain' stepOk
      (.starting :: .starting :: (List.replicate (k + 1) .downloading ++ tail)) := by
  rw [List.chain'_cons]
  refine ⟨Or.inl rfl, ?_⟩
  rw [List.chain'_cons']
  refine ⟨?_, chain_replicate_append _ _ _ htail⟩
  intro y hy
  rw [List.replicate_succ, List.cons_append] at hy
  simp only [List.head?_cons, Option.mem_def, Option.some.injEq] at hy
  subst hy
  exact Or.inr (Or.inl ⟨rfl, Or.inl rfl⟩)

/-- Once a status trace satisfying the transition relation reaches a
terminal status, every later entry equals it. -/
theorem chain_stepOk_stable (l : List TaskStatus) (hc : List.Chain' stepOk l) :
    ∀ (i j : Nat) (hi : i < l.length) (hj : j < l.length), i ≤ j →
      isTerminal (l.get ⟨i, hi⟩) = true → l.get ⟨j, hj⟩ = l.get ⟨i, hi⟩ := by
  have hstep : ∀ a b, stepOk a b → isTerminal a = true → b = a := by
    intro a b hab ha
    rcases hab with rfl | ⟨rfl, _⟩ | ⟨rfl, _⟩
    · rfl
    · simp [isTerminal] at ha
    · simp [isTerminal] at ha
  have hchain := List.chain'_iff_get.mp hc
  intro i j hi hj hij hterm
  obtain ⟨n, rfl⟩ : ∃ n, j = i + n := ⟨j - i, by omega⟩
  clear hij
  induction n with
  | zero => rfl
  | succ n ih =>
    have hjn : i + n < l.length := by omega
    have hprev := ih hjn
    have hterm2 : isTerminal (l.get ⟨i + n, hjn⟩) = true := by
      rw [hprev]; exact hterm
    have hrel := hchain (i + n) (by omega)
    have hnext := hstep _ _ hrel hterm2
    calc l.get ⟨i + (n + 1), hj⟩ = l.get ⟨i + n + 1, hj⟩ := rfl
    _ = l.get ⟨i + n, hjn⟩ := hnext
    _ = l.get ⟨i, hi⟩ := hprev

/-- C9: for every environment, the status history of a task record follows
the state machine starting → downloading → completed, or
starting|downloading → error (with stuttering steps for mutations that do
not change the status); the history starts at "starting", and once a
terminal status (completed or error) is reached every later point of the
history holds that same status. -/
theorem C9_state_machine (wordChar spaceChar : Char → Bool) (env : RunEnv)
    (quality : Nat) (sid : String) :
    List.Chain' stepOk
      ((runDownloadTrace wordChar spaceChar env quality (newTaskData sid)).map
        TaskData.status) ∧
    ((runDownloadTrace wordChar spaceChar env quality (newTaskData sid)).map
        TaskData.status).head? = some .starting ∧
    (∀ (i j : Nat)
      (hi : i < ((runDownloadTrace wordChar spaceChar env quality
        (newTaskData sid)).map TaskData.status).length)
      (hj : j < ((runDownloadTrace wordChar spaceChar env quality
        (newTaskData sid)).map TaskData.status).length),
      i ≤ j →
      isTerminal (((runDownloadTrace wordChar spaceChar env quality
        (newTaskData sid)).map TaskData.status).get ⟨i, hi⟩) = true →
      ((runDownloadTrace wordChar spaceChar env quality
        (newTaskData sid)).map TaskData.status).get ⟨j, hj⟩ =
      ((runDownloadTrace wordChar spaceChar env quality
        (newTaskData sid)).map TaskData.status).get ⟨i, hi⟩) := by
  have hchain : List.Chain' stepOk
      ((runDownloadTrace wordChar spaceChar env quality (newTaskData sid)).map
        TaskData.status) := by
    obtain h | ⟨k, h⟩ | ⟨k, h⟩ :=
        runDownloadTrace_status_shape wordChar spaceChar env quality sid <;>
      rw [h]
    · rw [List.chain'_cons, List.chain'_cons]
      exact ⟨Or.inr (Or.inl ⟨rfl, Or.inr rfl⟩), Or.inl rfl, List.chain'_singleton _⟩
    · refine chain_starting_replicate k [.error, .error] ?_
      rw [List.chain'_cons, List.chain'_cons]
      exact ⟨Or.inr (Or.inr ⟨rfl, Or.inr rfl⟩), Or.inl rfl, List.chain'_singleton _⟩
    · refine chain_starting_replicate k [.completed, .completed, .completed] ?_
      rw [List.chain'_cons, List.chain'_cons, List.chain'_cons]
      exact ⟨Or.inr (Or.inr ⟨rfl, Or.inl rfl⟩), Or.inl rfl, Or.inl rfl,
        List.chain'_singleton _⟩
  have hhead : ((runDownloadTrace wordChar spaceChar env quality
      (newTaskData sid)).map TaskData.status).head? = some .starting := by
    obtain h | ⟨k, h⟩ | ⟨k, h⟩ :=
        runDownloadTrace_status_shape wordChar spaceChar env quality sid <;>
      rw [h] <;> rfl
  exact ⟨hchain, hhead, chain_stepOk_stable _ hchain⟩

/-- Witness for C9 at a concrete immediately-failing environment: index 1 of
the history holds the terminal status "error" and index 2 still holds it. -/
theorem C9_state_machine_witness :
    ((runDownloadTrace asciiWordChar asciiSpaceChar failEnv 80
        (newTaskData "sid")).map TaskData.status).get ⟨2, by decide⟩ =
    ((runDownloadTrace asciiWordChar asciiSpaceChar failEnv 80
        (newTaskData "sid")).map TaskData.status).get ⟨1, by decide⟩ :=
  (C9_state_machine asciiWordChar asciiSpaceChar failEnv 80 "sid").2.2 1 2
    (by decide) (by decide) (by decide) (by decide)

/-- Witness for C10 at a concrete one-completed-task state. -/
theorem C10_cleanup_frame_witness :
    "t1" ∉ (periodic_cleanup_tasks oneDoneState).downloadTasks ∧
    (periodic_cleanup_tasks oneDoneState).sessions = oneDoneState.sessions ∧
    (periodic_cleanup_tasks oneDoneState).heap = oneDoneState.heap ∧
    (∃ ts, lookupA (periodic_cleanup_tasks oneDoneState).sessions "sessA" = some ts ∧
      "t1" ∈ ts) ∧
    download_progress (periodic_cleanup_tasks oneDoneState) "t1" none = .notFound :=
  C10_cleanup_frame oneDoneState "t1" "sessA"
    { newTaskData "sessA" with status := .completed } none
    (by decide) (by decide) ⟨["t1"], by decide, by decide⟩

end BiliDL
